import Mathlib

/-!
A shallow embedding of the `revengel/currency` CLI (Go), covering its two
variants:

* the JSON-endpoint variant (`main.go`): `getCurrencyItem`,
  `getCurrencyItemCache`, `currencyData.getRow` and the batch loop in `main`;
* the XML-bulletin variant (`src/unnamed/part_000`, first file):
  `getCurrencyRates`, `getCurrencyRate`, `Valute.getRow`, its
  `getCurrencyItemCache` (suffixed `XML` here) and its batch loop.

The bolt store is modelled as an association list of (key, blob) pairs inside
the single "cache" bucket; a write transaction that rolls back leaves the list
unchanged, and `tx.Commit` after a single `b.Put` is modelled by returning the
updated list.  The HTTP layer is modelled by passing the parsed response (or
its failure) as an explicit parameter; an instrumentation counter records how
many times a provider fetch block is entered.  Go float64 values are modelled
as rationals.
-/

namespace Currency

/-- The error values surfaced by the program (messages abbreviated to the
data they carry). -/
inductive Err where
  | invalidCurrency : String → Err
  | notFound : String → Err
  | parseFloat : String → Err
  | decodeErr : String → Err
  | network : String → Err
  | status : String → Err
  | emptyBody : Err
deriving DecidableEq, Repr

/-- Result of a Go call that can also crash the process (`panic` /
index-out-of-range). -/
inductive Outcome (α : Type) where
  | ok : α → Outcome α
  | err : Err → Outcome α
  | panics : Outcome α
deriving DecidableEq, Repr

end Currency

namespace Currency

/-- A calendar date as used by `time.Time` here (only the date part matters
to the program: keys and output use `02.01.2006`). -/
structure Date where
  day : Nat
  month : Nat
  year : Nat
deriving DecidableEq, Repr

/-- Two-digit zero-padded decimal rendering, as Go's `02`/`01` layout
components produce for day and month. -/
def pad2 (n : Nat) : String :=
  String.mk [Nat.digitChar (n / 10), Nat.digitChar (n % 10)]

/-- Four-digit zero-padded decimal rendering, as Go's `2006` layout component
produces for years below 10000. -/
def pad4 (n : Nat) : String :=
  String.mk [Nat.digitChar (n / 1000), Nat.digitChar (n / 100 % 10),
             Nat.digitChar (n / 10 % 10), Nat.digitChar (n % 10)]

/-- `t.Format(outputDateFormat)` with `outputDateFormat = "02.01.2006"`. -/
def formatDate (d : Date) : String :=
  pad2 d.day ++ "." ++ pad2 d.month ++ "." ++ pad4 d.year

/-- The cache key `fmt.Sprintf("%s-%s", t.Format(outputDateFormat), name)`
built at the top of `getCurrencyItemCache` (both variants).  Note the
currency name is used exactly as passed, with no case normalisation. -/
def mkCacheKey (d : Date) (name : String) : String :=
  formatDate d ++ "-" ++ name

/-- Models Go's `strings.ToLower` (character-wise lowercasing; the
identifiers and char codes involved are ASCII). -/
def strToLower (s : String) : String :=
  String.mk (s.data.map Char.toLower)

/-- Models Go's `strings.ToUpper` (character-wise uppercasing). -/
def strToUpper (s : String) : String :=
  String.mk (s.data.map Char.toUpper)

/-- Digit character value, for parsing date/number strings. -/
def digitVal (c : Char) : Nat := c.toNat - 48

/-- Numeric value of a digit string, most significant first. -/
def natOfDigits (cs : List Char) : Nat :=
  cs.foldl (fun a c => a * 10 + digitVal c) 0

/-- Days in a month, with Gregorian leap years, as Go `time.Parse`
validates. -/
def daysInMonth (m y : Nat) : Nat :=
  if m = 2 then
    if y % 4 = 0 ∧ (y % 100 ≠ 0 ∨ y % 400 = 0) then 29 else 28
  else if m = 4 ∨ m = 6 ∨ m = 9 ∨ m = 11 then 30
  else 31

/-- Models `time.Parse(urlDateTimeFormat, s)` for the fixed layout
`2006-01-02T15:04:05`: nineteen characters, digits in the numeric positions,
literal separators, with field ranges validated.  Returns the date part. -/
def parseDateTime (s : String) : Option Date :=
  match s.data with
  | [y1, y2, y3, y4, s1, m1, m2, s2, d1, d2, t1, h1, h2, c1, n1, n2, c2, e1, e2] =>
    if s1 = '-' ∧ s2 = '-' ∧ t1 = 'T' ∧ c1 = ':' ∧ c2 = ':' ∧
        ([y1, y2, y3, y4, m1, m2, d1, d2, h1, h2, n1, n2, e1, e2].all Char.isDigit) then
      let year := natOfDigits [y1, y2, y3, y4]
      let month := natOfDigits [m1, m2]
      let day := natOfDigits [d1, d2]
      let hour := natOfDigits [h1, h2]
      let minute := natOfDigits [n1, n2]
      let sec := natOfDigits [e1, e2]
      if 1 ≤ month ∧ month ≤ 12 ∧ 1 ≤ day ∧ day ≤ daysInMonth month year ∧
          hour < 24 ∧ minute < 60 ∧ sec < 60 then
        some ⟨day, month, year⟩
      else none
    else none
  | _ => none

/-- Round a rational to the nearest integer, ties to even, as decimal
formatting of an exact value rounds. -/
def roundHalfEven (q : ℚ) : ℤ :=
  let f := q.floor
  let r := q - (f : ℚ)
  if r < 1 / 2 then f
  else if 1 / 2 < r then f + 1
  else if f % 2 = 0 then f else f + 1

/-- Models Go's `fmt.Sprintf("%.2f", x)`: the value rounded to two decimal
digits and printed with exactly two fractional digits. -/
def fmt2 (q : ℚ) : String :=
  let n : ℤ := roundHalfEven (q * 100)
  let a : ℕ := n.natAbs
  (if q < 0 then "-" else "") ++ Nat.repr (a / 100) ++ "." ++
    String.mk [Nat.digitChar (a % 100 / 10), Nat.digitChar (a % 10)]

end Currency

namespace Currency

/-- `currencyInfo` from `main.go`: provider code and divisor per known
currency. -/
structure currencyInfo where
  code : String
  div : ℚ
deriving DecidableEq, Repr

/-- The `currenciesInfo` map literal from `main.go`. -/
def currenciesInfo : String → Option currencyInfo
  | "usd" => some ⟨"R01235", 1⟩
  | "eur" => some ⟨"R01239", 1⟩
  | "uah" => some ⟨"R01720", 10⟩
  | _ => none

/-- `currencyData` from `main.go`: the JSON provider's record.  `Date` keeps
the provider's `2006-01-02T15:04:05` string; `Curs`/`Diff` are the raw float
fields; `DivOn` is filled from `currenciesInfo`. -/
structure currencyData where
  Name : String
  DivOn : ℚ
  Date : String
  Curs : ℚ
  Diff : ℚ
deriving DecidableEq, Repr

/-- `currencyData.getDate`: parse the provider date string and re-format it
as `02.01.2006`; a parse failure panics. -/
def currencyData.getDate (cr : currencyData) : Outcome String :=
  match parseDateTime cr.Date with
  | none => .panics
  | some d => .ok (formatDate d)

/-- `currencyData.getRow`: the output row — formatted date, uppercased name,
and the two-decimal renderings of `Curs/DivOn` and `Diff/DivOn`.  The
division happens here, at render time. -/
def currencyData.getRow (cr : currencyData) : Outcome (List String) :=
  match cr.getDate with
  | .ok ds => .ok [ds, strToUpper cr.Name, fmt2 (cr.Curs / cr.DivOn), fmt2 (cr.Diff / cr.DivOn)]
  | .err e => .err e
  | .panics => .panics

/-- `getCurrencyItem` from `main.go`.  The HTTP request, status check, body
read and `json.Unmarshal` are collapsed into the `resp` parameter: `.error`
for any of their failures, `.ok data` for a decoded `[]currencyData`.  The
function indexes `data[len(data)-1]` with no emptiness check, which panics on
an empty array, then stamps `Name` and `DivOn` onto the chosen element. -/
def getCurrencyItem (name : String) (resp : Except Err (List currencyData)) :
    Outcome currencyData :=
  match currenciesInfo name with
  | none => .err (.invalidCurrency name)
  | some info =>
    match resp with
    | .error e => .err e
    | .ok data =>
      match data.getLast? with
      | none => .panics
      | some d => .ok { d with Name := name, DivOn := info.div }

end Currency

namespace Currency

/-- A stored cache value: either the serialisation of a record (the
`json.Marshal` image, which round-trips) or undecodable bytes, on which
`json.Unmarshal` fails. -/
inductive Blob (α : Type) where
  | enc : α → Blob α
  | corrupt : String → Blob α
deriving DecidableEq, Repr

/-- `json.Unmarshal` of a stored value into the record type. -/
def decodeBlob {α : Type} : Blob α → Except Err α
  | .enc r => .ok r
  | .corrupt s => .error (.decodeErr s)

/-- The "cache" bucket of the bolt store: an association list of
(key, value) entries. -/
abbrev StoreOf (α : Type) : Type := List (String × Blob α)

/-- `b.Get(key)`: the value of the first entry with the key, if any. -/
def storeGet {α : Type} : StoreOf α → String → Option (Blob α)
  | [], _ => none
  | (k', v) :: rest, k => if k' = k then some v else storeGet rest k

/-- `b.Put(key, val)`: replace the entry for the key if present, else append
it (bolt keeps one value per key). -/
def storePut {α : Type} : StoreOf α → String → Blob α → StoreOf α
  | [], k, v => [(k, v)]
  | (k', v') :: rest, k, v =>
    if k' = k then (k, v) :: rest else (k', v') :: storePut rest k v

/-- Number of entries a store holds for a key. -/
def countKey {α : Type} (s : StoreOf α) (k : String) : Nat :=
  s.countP (fun p => p.1 = k)

/-- Store of serialised `currencyData` records (the `main.go` variant). -/
abbrev Store : Type := StoreOf currencyData

/-- Result of one `getCurrencyItemCache` call: the outcome, the committed
store contents afterwards, and how many times the provider fetch block
(`skipCache` label) ran. -/
structure CacheResult where
  out : Outcome currencyData
  store : Store
  providerCalls : Nat
deriving DecidableEq, Repr

/-- The `skipCache:` label block of `getCurrencyItemCache` (`main.go`):
fetch from the provider; on failure return with the transaction rolled back;
on success marshal the record, `Put` it under the key and commit. -/
def cacheFetchAndStore (name : String) (cacheKey : String)
    (resp : Except Err (List currencyData)) (store : Store) : CacheResult :=
  match getCurrencyItem name resp with
  | .panics => ⟨.panics, store, 1⟩
  | .err e => ⟨.err e, store, 1⟩
  | .ok r => ⟨.ok r, storePut store cacheKey (.enc r), 1⟩

/-- `getCurrencyItemCache` from `main.go`: build the key, begin a write
transaction (rolled back on every path that does not commit), ensure the
bucket; unless `skipCache`, `Get` the key — a hit is unmarshalled and
returned (decode failure is returned as the error), a miss falls through to
the fetch-and-store block. -/
def getCurrencyItemCache (name : String) (d : Date) (skipCache : Bool)
    (resp : Except Err (List currencyData)) (store : Store) : CacheResult :=
  let cacheKey := mkCacheKey d name
  if skipCache then
    cacheFetchAndStore name cacheKey resp store
  else
    match storeGet store cacheKey with
    | none => cacheFetchAndStore name cacheKey resp store
    | some v =>
      match decodeBlob v with
      | .error e => ⟨.err e, store, 0⟩
      | .ok r => ⟨.ok r, store, 0⟩

/-- Visible behaviour of one `main` run (`main.go` variant): either the rows
written to stdout, or `log.Fatal` (non-zero exit, nothing printed), or a
panic. -/
inductive RunResult where
  | printed : List (List String) → RunResult
  | fatalExit : Err → RunResult
  | panicExit : RunResult
deriving DecidableEq, Repr

/-- The batch loop of `main` (`main.go`): process the currency list in
order, one `getCurrencyItemCache` plus `getRow` per currency, accumulating
output rows; the first error hits `log.Fatal` and nothing further runs.
`respFor` gives each currency's provider response for this run. -/
def processList (d : Date) (skip : Bool)
    (respFor : String → Except Err (List currencyData)) :
    List String → Store → List (List String) → Outcome (List (List String)) × Store
  | [], store, rows => (.ok rows, store)
  | c :: rest, store, rows =>
    let res := getCurrencyItemCache c d skip (respFor c) store
    match res.out with
    | .err e => (.err e, res.store)
    | .panics => (.panics, res.store)
    | .ok r =>
      match r.getRow with
      | .err e => (.err e, res.store)
      | .panics => (.panics, res.store)
      | .ok row => processList d skip respFor rest res.store (rows ++ [row])

/-- `main` (`main.go`), after flag parsing and store opening: run the batch
loop; only a fully successful run reaches `writer.WriteAll`, so rows are
printed only when every currency resolved. -/
def mainRun (currs : List String) (d : Date) (skip : Bool)
    (respFor : String → Except Err (List currencyData)) (store : Store) :
    RunResult × Store :=
  match processList d skip respFor currs store [] with
  | (.ok rows, s) => (.printed rows, s)
  | (.err e, s) => (.fatalExit e, s)
  | (.panics, s) => (.panicExit, s)

end Currency

namespace Currency

/-- `Valute` from the XML variant: one `<Valute>` element of the daily
bulletin (the `Date` field is stamped by the caller and passed separately
here). -/
structure Valute where
  ID : String
  NumCode : Int
  CharCode : String
  Nominal : Int
  Name : String
  Value : String
deriving DecidableEq, Repr

/-- Models `strconv.ParseFloat` on the plain decimal forms the bulletin
emits after comma replacement: optional sign, integer digits, optional
fractional digits (exponent and hex float forms are not modelled). -/
def parseDecimal (s : String) : Option ℚ :=
  let signed : Bool × List Char :=
    match s.data with
    | '-' :: rest => (true, rest)
    | '+' :: rest => (false, rest)
    | cs => (false, cs)
  let cs := signed.2
  let intDigits := cs.takeWhile Char.isDigit
  let rest := cs.dropWhile Char.isDigit
  if intDigits.isEmpty then none
  else
    let magnitude : Option ℚ :=
      match rest with
      | [] => some (natOfDigits intDigits : ℚ)
      | '.' :: frac =>
        if frac.all Char.isDigit then
          some ((natOfDigits intDigits : ℚ) +
            (natOfDigits frac : ℚ) / ((10 : ℚ) ^ frac.length))
        else none
      | _ => none
    magnitude.map (fun m => if signed.1 then -m else m)

/-- `Valute.getRow` (XML variant): replace decimal commas by dots, parse the
value, and render formatted date, uppercased char code, and the two-decimal
rendering of `value / Nominal` — division at render time. -/
def Valute.getRow (v : Valute) (d : Date) : Except Err (List String) :=
  let valStr := String.mk (v.Value.data.map (fun c => if c = ',' then '.' else c))
  match parseDecimal valStr with
  | none => .error (.parseFloat valStr)
  | some val =>
    .ok [formatDate d, strToUpper v.CharCode, fmt2 (val / (v.Nominal : ℚ))]

/-- The global `currenciesRate` map: lowercased char code to output row
(Go map, one value per key). -/
abbrev RateMap : Type := List (String × List String)

/-- Go map read. -/
def mapGet : RateMap → String → Option (List String)
  | [], _ => none
  | (k', v) :: rest, k => if k' = k then some v else mapGet rest k

/-- Go map assignment: replace the entry if the key is present, else add
it. -/
def mapInsert : RateMap → String → List String → RateMap
  | [], k, v => [(k, v)]
  | (k', v') :: rest, k, v =>
    if k' = k then (k, v) :: rest else (k', v') :: mapInsert rest k v

/-- The `for _, val := range v.Valutes` loop of `getCurrencyRates`: build a
row per valute and assign it into the global map as it goes; a row failure
returns the error with the partial assignments already made. -/
def ratesLoop (d : Date) : List Valute → RateMap → Except Err RateMap × RateMap
  | [], m => (.ok m, m)
  | v :: vs, m =>
    match v.getRow d with
    | .error e => (.error e, m)
    | .ok row => ratesLoop d vs (mapInsert m (strToLower v.CharCode) row)

/-- `getCurrencyRates` (XML variant): if the in-memory per-run map is
non-empty, serve it with no HTTP request; otherwise issue the single HTTP
GET for the day's bulletin (its request/decode failures collapsed into
`resp`) and fill the map from the parsed valutes.  Returns the result, the
map state afterwards, and the number of HTTP requests issued (0 or 1). -/
def getCurrencyRates (d : Date) (mem : RateMap)
    (resp : Except Err (List Valute)) : Except Err RateMap × RateMap × Nat :=
  if mem.length > 0 then (.ok mem, mem, 0)
  else
    match resp with
    | .error e => (.error e, mem, 1)
    | .ok valutes =>
      let (r, m') := ratesLoop d valutes mem
      (r, m', 1)

/-- `getCurrencyRate` (XML variant): look the lowercased requested name up
in the day's rates. -/
def getCurrencyRate (name : String) (d : Date) (mem : RateMap)
    (resp : Except Err (List Valute)) : Except Err (List String) × RateMap × Nat :=
  match getCurrencyRates d mem resp with
  | (.error e, m', n) => (.error e, m', n)
  | (.ok vals, m', n) =>
    match mapGet vals (strToLower name) with
    | some row => (.ok row, m', n)
    | none => (.error (.notFound name), m', n)

/-- Store of serialised output rows (the XML variant caches `[]string`). -/
abbrev StoreX : Type := StoreOf (List String)

/-- Result of one XML-variant `getCurrencyItemCache` call. -/
structure CacheResultX where
  out : Outcome (List String)
  store : StoreX
  mem : RateMap
  httpCalls : Nat
deriving DecidableEq, Repr

/-- The `skipCache:` label block of the XML variant's
`getCurrencyItemCache`: fetch the row, and on success marshal, `Put` and
commit. -/
def cacheFetchAndStoreXML (name : String) (cacheKey : String) (d : Date)
    (resp : Except Err (List Valute)) (store : StoreX) (mem : RateMap) :
    CacheResultX :=
  match getCurrencyRate name d mem resp with
  | (.error e, m', n) => ⟨.err e, store, m', n⟩
  | (.ok r, m', n) => ⟨.ok r, storePut store cacheKey (.enc r), m', n⟩

/-- `getCurrencyItemCache` of the XML variant: identical transaction and
key logic to the `main.go` variant, but caching the provider row and
fetching through the bulletin map. -/
def getCurrencyItemCacheXML (name : String) (d : Date) (skipCache : Bool)
    (resp : Except Err (List Valute)) (store : StoreX) (mem : RateMap) :
    CacheResultX :=
  let cacheKey := mkCacheKey d name
  if skipCache then
    cacheFetchAndStoreXML name cacheKey d resp store mem
  else
    match storeGet store cacheKey with
    | none => cacheFetchAndStoreXML name cacheKey d resp store mem
    | some v =>
      match decodeBlob v with
      | .error e => ⟨.err e, store, mem, 0⟩
      | .ok r => ⟨.ok r, store, mem, 0⟩

/-- Result of the XML variant's batch loop: outcome, final store and map
state, and the total number of HTTP requests issued during the run. -/
structure BatchResX where
  out : Outcome (List (List String))
  store : StoreX
  mem : RateMap
  httpCalls : Nat
deriving DecidableEq, Repr

/-- The batch loop of the XML variant's `main`: one cache lookup per
requested currency, sequentially, threading store and bulletin map; the
first failure hits `log.Fatal` and stops the run. -/
def processListXML (d : Date) (skip : Bool)
    (resp : Except Err (List Valute)) :
    List String → StoreX → RateMap → Nat → List (List String) → BatchResX
  | [], store, mem, n, rows => ⟨.ok rows, store, mem, n⟩
  | c :: rest, store, mem, n, rows =>
    let res := getCurrencyItemCacheXML c d skip resp store mem
    match res.out with
    | .err e => ⟨.err e, res.store, res.mem, n + res.httpCalls⟩
    | .panics => ⟨.panics, res.store, res.mem, n + res.httpCalls⟩
    | .ok row => processListXML d skip resp rest res.store res.mem (n + res.httpCalls) (rows ++ [row])

end Currency

namespace Currency

instance {ε α : Type} [DecidableEq ε] [DecidableEq α] : DecidableEq (Except ε α)
  | .ok a, .ok b =>
    if h : a = b then .isTrue (by rw [h]) else .isFalse (by intro hc; cases hc; exact h rfl)
  | .ok _, .error _ => .isFalse (by intro hc; cases hc)
  | .error _, .ok _ => .isFalse (by intro hc; cases hc)
  | .error a, .error b =>
    if h : a = b then .isTrue (by rw [h]) else .isFalse (by intro hc; cases hc; exact h rfl)

/-- After a `Put`, the key reads back the value just written. -/
theorem storeGet_storePut_self {α : Type} (s : StoreOf α) (k : String) (v : Blob α) :
    storeGet (storePut s k v) k = some v := by
  induction s with
  | nil => simp [storePut, storeGet]
  | cons hd tl ih =>
    obtain ⟨k₀, v₀⟩ := hd
    by_cases h : k₀ = k
    · simp [storePut, h, storeGet]
    · simp [storePut, h, storeGet, ih]

/-- A `Put` does not disturb other keys. -/
theorem storeGet_storePut_ne {α : Type} (s : StoreOf α) (k k' : String) (v : Blob α)
    (h : k' ≠ k) : storeGet (storePut s k v) k' = storeGet s k' := by
  induction s with
  | nil => simp [storePut, storeGet, Ne.symm h]
  | cons hd tl ih =>
    obtain ⟨k₀, v₀⟩ := hd
    by_cases h1 : k₀ = k
    · subst h1
      simp [storePut, storeGet, Ne.symm h]
    · by_cases h2 : k₀ = k'
      · simp [storePut, h1, storeGet, h2, h, Ne.symm h]
      · simp [storePut, h1, storeGet, h2, ih]

/-- A `Put` leaves exactly one entry for the key when the store held at most
one (bolt's bucket always holds at most one per key). -/
theorem countKey_storePut {α : Type} (s : StoreOf α) (k : String) (v : Blob α)
    (h : countKey s k ≤ 1) : countKey (storePut s k v) k = 1 := by
  induction s with
  | nil => simp [storePut, countKey]
  | cons hd tl ih =>
    obtain ⟨k₀, v₀⟩ := hd
    by_cases h1 : k₀ = k
    · subst h1
      simp only [storePut, if_pos rfl]
      unfold countKey at h ⊢
      simp only [List.countP_cons, decide_True, if_true, decide_eq_true_eq] at h ⊢
      omega
    · simp only [storePut, if_neg h1]
      simp only [countKey, List.countP_cons, decide_eq_true_eq, if_neg h1,
        Nat.add_zero] at h ⊢
      exact ih h

end Currency

namespace Currency

/-- C1: Atomicity under provider failure — for every (currency, date) lookup
in which the provider call fails, `getCurrencyItemCache` leaves the cache
store unchanged (a key with no prior entry still has none, a key with a
prior entry retains it), because the transaction is rolled back before any
write is committed; and whenever the fetch block actually ran, the
provider's error is surfaced unchanged. -/
theorem spec_C1_provider_failure_atomic (name : String) (d : Date) (skip : Bool)
    (resp : Except Err (List currencyData)) (store : Store) (e : Err)
    (h : getCurrencyItem name resp = .err e) :
    (getCurrencyItemCache name d skip resp store).store = store ∧
    ((getCurrencyItemCache name d skip resp store).providerCalls = 1 →
      (getCurrencyItemCache name d skip resp store).out = .err e) := by
  unfold getCurrencyItemCache cacheFetchAndStore
  cases skip with
  | true => simp [h]
  | false =>
    cases hg : storeGet store (mkCacheKey d name) with
    | none => simp [hg, h]
    | some v =>
      cases hd : decodeBlob v with
      | error e' => simp [hg, hd]
      | ok r => simp [hg, hd]

/-- Witness for C1 at a concrete input: a network failure on a fresh store
leaves the store empty and surfaces the error. -/
theorem spec_C1_provider_failure_atomic_witness :
    (getCurrencyItemCache "usd" ⟨10, 1, 2024⟩ false (.error (.network "down")) []).store
        = ([] : Store) ∧
    ((getCurrencyItemCache "usd" ⟨10, 1, 2024⟩ false (.error (.network "down")) []).providerCalls
          = 1 →
      (getCurrencyItemCache "usd" ⟨10, 1, 2024⟩ false (.error (.network "down")) []).out
        = .err (.network "down")) :=
  spec_C1_provider_failure_atomic "usd" ⟨10, 1, 2024⟩ false (.error (.network "down")) []
    (.network "down") (by decide)

/-- C3: an existing cache entry that fails to decode makes the lookup return
that decode failure; the result does not depend on the provider response
(no re-fetch: zero provider calls) and the store is unchanged (no write). -/
theorem spec_C3_decode_failure_propagates (name : String) (d : Date)
    (resp : Except Err (List currencyData)) (store : Store)
    (v : Blob currencyData) (e : Err)
    (hget : storeGet store (mkCacheKey d name) = some v)
    (hdec : decodeBlob v = .error e) :
    getCurrencyItemCache name d false resp store = ⟨.err e, store, 0⟩ := by
  unfold getCurrencyItemCache
  simp [hget, hdec]

/-- Witness for C3 at a concrete input: a corrupt entry for the key is
returned as a decode error with no provider call and no write. -/
theorem spec_C3_decode_failure_propagates_witness :
    getCurrencyItemCache "usd" ⟨10, 1, 2024⟩ false (.ok [])
        [(mkCacheKey ⟨10, 1, 2024⟩ "usd", Blob.corrupt "junk")]
      = ⟨.err (.decodeErr "junk"),
          [(mkCacheKey ⟨10, 1, 2024⟩ "usd", Blob.corrupt "junk")], 0⟩ :=
  spec_C3_decode_failure_propagates "usd" ⟨10, 1, 2024⟩ (.ok [])
    [(mkCacheKey ⟨10, 1, 2024⟩ "usd", Blob.corrupt "junk")]
    (Blob.corrupt "junk") (.decodeErr "junk") (by decide) (by decide)

/-- C5: bypass forces refresh — with `skipCache = true` the provider is
invoked no matter what the store holds, and on provider success the entry
for the key afterwards is exactly the newly fetched record; when the store
held at most one entry for the key (as bolt guarantees) it holds exactly one
afterwards (overwrite, not duplication). -/
theorem spec_C5_bypass_forces_refresh (name : String) (d : Date)
    (resp : Except Err (List currencyData)) (store : Store) (r : currencyData)
    (h : getCurrencyItem name resp = .ok r) :
    (getCurrencyItemCache name d true resp store).providerCalls = 1 ∧
    storeGet (getCurrencyItemCache name d true resp store).store (mkCacheKey d name)
        = some (.enc r) ∧
    (countKey store (mkCacheKey d name) ≤ 1 →
      countKey (getCurrencyItemCache name d true resp store).store (mkCacheKey d name) = 1) := by
  have hres : getCurrencyItemCache name d true resp store
      = ⟨.ok r, storePut store (mkCacheKey d name) (.enc r), 1⟩ := by
    unfold getCurrencyItemCache cacheFetchAndStore
    simp [h]
  rw [hres]
  exact ⟨rfl, storeGet_storePut_self store (mkCacheKey d name) (.enc r),
    fun hc => countKey_storePut store (mkCacheKey d name) (.enc r) hc⟩

/-- Witness for C5 at a concrete input: bypass over a store holding an old
value for the key replaces it with the newly fetched record. -/
theorem spec_C5_bypass_forces_refresh_witness :
    (getCurrencyItemCache "usd" ⟨10, 1, 2024⟩ true
          (.ok [⟨"", 0, "2024-01-10T00:00:00", 92, 0⟩])
          [(mkCacheKey ⟨10, 1, 2024⟩ "usd",
            Blob.enc ⟨"usd", 1, "2024-01-10T00:00:00", 91, 0⟩)]).providerCalls = 1 ∧
    storeGet (getCurrencyItemCache "usd" ⟨10, 1, 2024⟩ true
          (.ok [⟨"", 0, "2024-01-10T00:00:00", 92, 0⟩])
          [(mkCacheKey ⟨10, 1, 2024⟩ "usd",
            Blob.enc ⟨"usd", 1, "2024-01-10T00:00:00", 91, 0⟩)]).store
        (mkCacheKey ⟨10, 1, 2024⟩ "usd")
      = some (Blob.enc (⟨"usd", 1, "2024-01-10T00:00:00", 92, 0⟩ : currencyData)) ∧
    (countKey ([(mkCacheKey ⟨10, 1, 2024⟩ "usd",
          Blob.enc ⟨"usd", 1, "2024-01-10T00:00:00", 91, 0⟩)] : Store)
        (mkCacheKey ⟨10, 1, 2024⟩ "usd") ≤ 1 →
      countKey (getCurrencyItemCache "usd" ⟨10, 1, 2024⟩ true
            (.ok [⟨"", 0, "2024-01-10T00:00:00", 92, 0⟩])
            [(mkCacheKey ⟨10, 1, 2024⟩ "usd",
              Blob.enc ⟨"usd", 1, "2024-01-10T00:00:00", 91, 0⟩)]).store
          (mkCacheKey ⟨10, 1, 2024⟩ "usd") = 1) :=
  spec_C5_bypass_forces_refresh "usd" ⟨10, 1, 2024⟩
    (.ok [⟨"", 0, "2024-01-10T00:00:00", 92, 0⟩])
    [(mkCacheKey ⟨10, 1, 2024⟩ "usd",
      Blob.enc ⟨"usd", 1, "2024-01-10T00:00:00", 91, 0⟩)]
    ⟨"usd", 1, "2024-01-10T00:00:00", 92, 0⟩ (by decide)

/-- C6: idempotence of cache hits — if a first non-bypass lookup for a fixed
(date, currency) succeeds, a second non-bypass lookup (with any provider
response) returns the identical record, makes no provider call, and leaves
the store as the first call left it. -/
theorem spec_C6_cache_hit_idempotent (name : String) (d : Date)
    (resp resp' : Except Err (List currencyData)) (store : Store)
    (r : currencyData)
    (h : (getCurrencyItemCache name d false resp store).out = .ok r) :
    getCurrencyItemCache name d false resp'
        (getCurrencyItemCache name d false resp store).store
      = ⟨.ok r, (getCurrencyItemCache name d false resp store).store, 0⟩ := by
  have hkey : storeGet (getCurrencyItemCache name d false resp store).store
      (mkCacheKey d name) = some (.enc r) := by
    unfold getCurrencyItemCache cacheFetchAndStore at h ⊢
    cases hg : storeGet store (mkCacheKey d name) with
    | none =>
      simp only [hg] at h ⊢
      cases hi : getCurrencyItem name resp with
      | ok r' =>
        simp only [hi] at h ⊢
        cases h
        exact storeGet_storePut_self store (mkCacheKey d name) (.enc r)
      | err e => simp [hi] at h
      | panics => simp [hi] at h
    | some v =>
      cases v with
      | enc r' =>
        simp only [hg, decodeBlob] at h ⊢
        cases h
        exact hg
      | corrupt s => simp [hg, decodeBlob] at h
  generalize (getCurrencyItemCache name d false resp store).store = s₁ at hkey ⊢
  unfold getCurrencyItemCache
  simp [hkey, decodeBlob]

/-- Witness for C6 at a concrete input: a first call on an empty store
populates the cache and a second call is served from it unchanged. -/
theorem spec_C6_cache_hit_idempotent_witness :
    getCurrencyItemCache "usd" ⟨10, 1, 2024⟩ false (.error (.network "down"))
        (getCurrencyItemCache "usd" ⟨10, 1, 2024⟩ false
          (.ok [⟨"", 0, "2024-01-10T00:00:00", 91, 0⟩]) []).store
      = ⟨.ok ⟨"usd", 1, "2024-01-10T00:00:00", 91, 0⟩,
          (getCurrencyItemCache "usd" ⟨10, 1, 2024⟩ false
            (.ok [⟨"", 0, "2024-01-10T00:00:00", 91, 0⟩]) []).store, 0⟩ :=
  spec_C6_cache_hit_idempotent "usd" ⟨10, 1, 2024⟩
    (.ok [⟨"", 0, "2024-01-10T00:00:00", 91, 0⟩]) (.error (.network "down")) []
    ⟨"usd", 1, "2024-01-10T00:00:00", 91, 0⟩ (by decide)

/-- Distinct decimal digits render as distinct characters. -/
theorem digitChar_inj : ∀ a < 10, ∀ b < 10, Nat.digitChar a = Nat.digitChar b → a = b := by
  decide

/-- C4 counterexample: the cache key uses the currency identifier exactly as
passed — for the name "USD" the key ends in "USD", not in its lowercase
form, so the claimed `<DD.MM.YYYY>-<lowercase-currency>` format is wrong. -/
theorem spec_C4_counterexample :
    mkCacheKey ⟨10, 1, 2024⟩ "USD" = "10.01.2024-USD" ∧
    mkCacheKey ⟨10, 1, 2024⟩ "USD" ≠ "10.01.2024-" ++ strToLower "USD" := by
  decide

/-- C4 amended: the cache key is the date formatted `DD.MM.YYYY`, a hyphen,
and the currency identifier exactly as passed (no lowercasing); the key is a
function of the pair (identical pairs give identical keys), and distinct
(date, name) pairs never collide, for dates whose components fit the
fixed-width rendering. -/
theorem spec_C4_amended_key :
    (∀ (d : Date) (n : String), mkCacheKey d n = formatDate d ++ "-" ++ n) ∧
    (∀ (d₁ d₂ : Date) (n₁ n₂ : String),
      d₁.day < 100 → d₁.month < 100 → d₁.year < 10000 →
      d₂.day < 100 → d₂.month < 100 → d₂.year < 10000 →
      mkCacheKey d₁ n₁ = mkCacheKey d₂ n₂ → d₁ = d₂ ∧ n₁ = n₂) := by
  refine ⟨fun d n => rfl, fun d₁ d₂ n₁ n₂ hd₁ hm₁ hy₁ hd₂ hm₂ hy₂ h => ?_⟩
  have hdata := congrArg String.data h
  simp only [mkCacheKey, formatDate, pad2, pad4, String.data_append,
    List.append_assoc, List.cons_append, List.nil_append, List.cons.injEq] at hdata
  obtain ⟨e1, e2, _, e3, e4, _, e5, e6, e7, e8, _, etail⟩ := hdata
  have q1 := digitChar_inj _ (by omega) _ (by omega) e1
  have q2 := digitChar_inj _ (by omega) _ (by omega) e2
  have q3 := digitChar_inj _ (by omega) _ (by omega) e3
  have q4 := digitChar_inj _ (by omega) _ (by omega) e4
  have q5 := digitChar_inj _ (by omega) _ (by omega) e5
  have q6 := digitChar_inj _ (by omega) _ (by omega) e6
  have q7 := digitChar_inj _ (by omega) _ (by omega) e7
  have q8 := digitChar_inj _ (by omega) _ (by omega) e8
  refine ⟨?_, String.ext etail⟩
  obtain ⟨a₁, b₁, c₁⟩ := d₁
  obtain ⟨a₂, b₂, c₂⟩ := d₂
  simp only at q1 q2 q3 q4 q5 q6 q7 q8 hd₁ hm₁ hy₁ hd₂ hm₂ hy₂
  simp only [Date.mk.injEq]
  omega

/-- Witness for the amended C4 at concrete inputs. -/
theorem spec_C4_amended_key_witness :
    mkCacheKey ⟨10, 1, 2024⟩ "usd" = formatDate ⟨10, 1, 2024⟩ ++ "-" ++ "usd" ∧
    ((⟨10, 1, 2024⟩ : Date) = ⟨10, 1, 2024⟩ ∧ ("usd" : String) = "usd") :=
  ⟨spec_C4_amended_key.1 ⟨10, 1, 2024⟩ "usd",
   spec_C4_amended_key.2 ⟨10, 1, 2024⟩ ⟨10, 1, 2024⟩ "usd" "usd"
     (by decide) (by decide) (by decide) (by decide) (by decide) (by decide) rfl⟩

/-- C7 counterexample: "usd" is in the JSON variant's known set, but the
lookup is an exact map access — the casing "USD" fails as an unknown
currency while "usd" succeeds, so the identifier is not treated
case-insensitively there. -/
theorem spec_C7_counterexample :
    (currenciesInfo "usd").isSome = true ∧
    getCurrencyItem "USD" (.ok [⟨"", 0, "2024-01-10T00:00:00", 91, 0⟩])
      = .err (.invalidCurrency "USD") ∧
    getCurrencyItem "usd" (.ok [⟨"", 0, "2024-01-10T00:00:00", 91, 0⟩])
      = .ok ⟨"usd", 1, "2024-01-10T00:00:00", 91, 0⟩ := by
  decide

/-- C7 amended: only the XML bulletin variant is case-insensitive — it
lowercases the identifier before the map lookup, so any two casings with the
same lowercase form resolve identically (same successful rows and identical
map/HTTP state); the JSON variant's known-set lookup is exact, and a name
outside the literal map fails as unknown. -/
theorem spec_C7_amended_case_insensitivity :
    (∀ (name₁ name₂ : String) (d : Date) (mem : RateMap)
        (resp : Except Err (List Valute)),
      strToLower name₁ = strToLower name₂ →
      (∀ row, (getCurrencyRate name₁ d mem resp).1 = .ok row ↔
          (getCurrencyRate name₂ d mem resp).1 = .ok row) ∧
      (getCurrencyRate name₁ d mem resp).2 = (getCurrencyRate name₂ d mem resp).2) ∧
    (∀ (name : String) (resp : Except Err (List currencyData)),
      currenciesInfo name = none →
      getCurrencyItem name resp = .err (.invalidCurrency name)) := by
  constructor
  · intro name₁ name₂ d mem resp h
    unfold getCurrencyRate
    rcases hg : getCurrencyRates d mem resp with ⟨r, m', n⟩
    cases r with
    | error e => simp
    | ok vals =>
      rw [h]
      cases hv : mapGet vals (strToLower name₂) with
      | none => simp [hv]
      | some row₀ => simp [hv]
  · intro name resp h
    unfold getCurrencyItem
    simp [h]

/-- Witness for the amended C7 at concrete inputs. -/
theorem spec_C7_amended_case_insensitivity_witness :
    ((∀ row, (getCurrencyRate "USD" ⟨10, 1, 2024⟩ [("usd", ["10.01.2024", "USD", "91.00"])]
            (.error .emptyBody)).1 = .ok row ↔
        (getCurrencyRate "usd" ⟨10, 1, 2024⟩ [("usd", ["10.01.2024", "USD", "91.00"])]
            (.error .emptyBody)).1 = .ok row) ∧
      (getCurrencyRate "USD" ⟨10, 1, 2024⟩ [("usd", ["10.01.2024", "USD", "91.00"])]
          (.error .emptyBody)).2 =
        (getCurrencyRate "usd" ⟨10, 1, 2024⟩ [("usd", ["10.01.2024", "USD", "91.00"])]
            (.error .emptyBody)).2) ∧
    getCurrencyItem "xyz" (.ok []) = .err (.invalidCurrency "xyz") :=
  ⟨spec_C7_amended_case_insensitivity.1 "USD" "usd" ⟨10, 1, 2024⟩
      [("usd", ["10.01.2024", "USD", "91.00"])] (.error .emptyBody) (by decide),
   spec_C7_amended_case_insensitivity.2 "xyz" (.ok []) (by decide)⟩

/-- The fetch-and-store block either leaves the store unchanged (failure) or
performs exactly one `Put` of the provider-faithful record: the chosen last
response element with only `Name` and `DivOn` stamped on. -/
theorem cacheFetchAndStore_store_spec (name cacheKey : String)
    (resp : Except Err (List currencyData)) (store : Store) :
    (cacheFetchAndStore name cacheKey resp store).store = store ∨
    ∃ info data dlast, currenciesInfo name = some info ∧ resp = .ok data ∧
      data.getLast? = some dlast ∧
      (cacheFetchAndStore name cacheKey resp store).store
        = storePut store cacheKey
            (.enc { dlast with Name := name, DivOn := info.div }) := by
  unfold cacheFetchAndStore getCurrencyItem
  cases hci : currenciesInfo name with
  | none => simp
  | some info =>
    cases resp with
    | error e => simp
    | ok data =>
      cases hl : data.getLast? with
      | none => simp [hl]
      | some dlast =>
        right
        exact ⟨info, data, dlast, rfl, rfl, hl, by simp [hl]⟩

/-- C2: stored cache entries are provider-faithful — any entry the cache
manager's call adds or changes is the serialisation of the raw provider
record (last response element, raw `Curs`/`Diff`, divisor in `DivOn`), never
a pre-divided rate; and the division `Curs / DivOn` (and `Diff / DivOn`)
happens at render time in `getRow`, which is applied to the returned record
on cache-hit and fresh-fetch paths alike. -/
theorem spec_C2_raw_storage_render_division :
    (∀ (name : String) (d : Date) (skip : Bool)
        (resp : Except Err (List currencyData)) (store : Store)
        (k' : String) (v' : Blob currencyData),
      storeGet (getCurrencyItemCache name d skip resp store).store k' = some v' →
      storeGet store k' = some v' ∨
      ∃ info data dlast, currenciesInfo name = some info ∧ resp = .ok data ∧
        data.getLast? = some dlast ∧ k' = mkCacheKey d name ∧
        v' = .enc { dlast with Name := name, DivOn := info.div }) ∧
    (∀ (cr : currencyData) (row : List String),
      cr.getRow = .ok row →
      row.get? 2 = some (fmt2 (cr.Curs / cr.DivOn)) ∧
      row.get? 3 = some (fmt2 (cr.Diff / cr.DivOn))) := by
  constructor
  · intro name d skip resp store k' v' h
    have hput : ∀ r : currencyData,
        storeGet (storePut store (mkCacheKey d name) (Blob.enc r)) k' = some v' →
        k' = mkCacheKey d name ∧ v' = Blob.enc r ∨ storeGet store k' = some v' := by
      intro r hp
      by_cases hk : k' = mkCacheKey d name
      · subst hk
        rw [storeGet_storePut_self] at hp
        exact Or.inl ⟨rfl, (Option.some.injEq _ _ ▸ hp).symm⟩
      · rw [storeGet_storePut_ne store _ _ _ hk] at hp
        exact Or.inr hp
    have hmain : (getCurrencyItemCache name d skip resp store).store = store ∨
        (getCurrencyItemCache name d skip resp store).store
          = (cacheFetchAndStore name (mkCacheKey d name) resp store).store := by
      unfold getCurrencyItemCache
      cases skip with
      | true => simp
      | false =>
        cases hg : storeGet store (mkCacheKey d name) with
        | none => simp [hg]
        | some v =>
          cases hd : decodeBlob v with
          | error e => simp [hg, hd]
          | ok r => simp [hg, hd]
    rcases hmain with hm | hm
    · rw [hm] at h
      exact Or.inl h
    · rcases cacheFetchAndStore_store_spec name (mkCacheKey d name) resp store with
        hs | ⟨info, data, dlast, h1, h2, h3, hs⟩
      · rw [hm, hs] at h
        exact Or.inl h
      · rw [hm, hs] at h
        rcases hput _ h with ⟨hk, hv⟩ | hold
        · exact Or.inr ⟨info, data, dlast, h1, h2, h3, hk, hv⟩
        · exact Or.inl hold
  · intro cr row h
    unfold currencyData.getRow at h
    cases hd : cr.getDate with
    | ok ds =>
      rw [hd] at h
      cases h
      exact ⟨rfl, rfl⟩
    | err e => rw [hd] at h; cases h
    | panics => rw [hd] at h; cases h

/-- Witness for C2 at concrete inputs: a fresh fetch stores the raw record
(rate 91 with divisor 10, not 9.1), and `getRow` renders the divided rate
9.10. -/
theorem spec_C2_raw_storage_render_division_witness :
    (storeGet ([] : Store) (mkCacheKey ⟨10, 1, 2024⟩ "uah")
        = some (Blob.enc (⟨"uah", 10, "2024-01-10T00:00:00", 91, 0⟩ : currencyData)) ∨
      ∃ info data dlast, currenciesInfo "uah" = some info ∧
        (Except.ok [(⟨"", 0, "2024-01-10T00:00:00", 91, 0⟩ : currencyData)]
            : Except Err (List currencyData)) = .ok data ∧
        data.getLast? = some dlast ∧
        mkCacheKey ⟨10, 1, 2024⟩ "uah" = mkCacheKey ⟨10, 1, 2024⟩ "uah" ∧
        Blob.enc (⟨"uah", 10, "2024-01-10T00:00:00", 91, 0⟩ : currencyData)
          = .enc { dlast with Name := "uah", DivOn := info.div }) ∧
    ((["10.01.2024", "UAH", "9.10", "0.00"] : List String).get? 2
        = some (fmt2 ((91 : ℚ) / 10)) ∧
      (["10.01.2024", "UAH", "9.10", "0.00"] : List String).get? 3
        = some (fmt2 ((0 : ℚ) / 10))) :=
  ⟨spec_C2_raw_storage_render_division.1 "uah" ⟨10, 1, 2024⟩ false
      (.ok [⟨"", 0, "2024-01-10T00:00:00", 91, 0⟩]) [] (mkCacheKey ⟨10, 1, 2024⟩ "uah")
      (Blob.enc ⟨"uah", 10, "2024-01-10T00:00:00", 91, 0⟩) (by with_unfolding_all decide),
   spec_C2_raw_storage_render_division.2 ⟨"uah", 10, "2024-01-10T00:00:00", 91, 0⟩
      ["10.01.2024", "UAH", "9.10", "0.00"] (by with_unfolding_all decide)⟩

/-- The batch loop processes a concatenation by finishing the first part and,
only if it fully succeeded, continuing with the second. -/
theorem processList_append (d : Date) (skip : Bool)
    (respFor : String → Except Err (List currencyData))
    (l₁ l₂ : List String) (store : Store) (rows : List (List String)) :
    processList d skip respFor (l₁ ++ l₂) store rows
      = match processList d skip respFor l₁ store rows with
        | (.ok rows', s) => processList d skip respFor l₂ s rows'
        | other => other := by
  induction l₁ generalizing store rows with
  | nil => simp [processList]
  | cons c cs ih =>
    simp only [List.cons_append, processList]
    cases h1 : (getCurrencyItemCache c d skip (respFor c) store).out with
    | err e => simp [h1]
    | panics => simp [h1]
    | ok r =>
      cases h2 : r.getRow with
      | err e => simp [h1, h2]
      | panics => simp [h1, h2]
      | ok row => simp [h1, h2, ih]

/-- C8: fail-fast batch — if the currencies before `c` all resolved and the
lookup for `c` fails, the whole run exits via `log.Fatal` (non-zero status)
with that error: the remaining currencies are not processed (the result does
not depend on them) and no output rows are printed, including the rows
already accumulated for the earlier successes. -/
theorem spec_C8_fail_fast_batch (d : Date) (skip : Bool)
    (respFor : String → Except Err (List currencyData))
    (pre : List String) (c : String) (rest : List String) (store : Store)
    (rows₁ : List (List String)) (s₁ : Store) (e : Err)
    (h1 : processList d skip respFor pre store [] = (.ok rows₁, s₁))
    (h2 : (getCurrencyItemCache c d skip (respFor c) s₁).out = .err e) :
    mainRun (pre ++ c :: rest) d skip respFor store
      = (.fatalExit e, (getCurrencyItemCache c d skip (respFor c) s₁).store) := by
  unfold mainRun
  rw [processList_append, h1]
  simp [processList, h2]

/-- Witness for C8 at concrete inputs: "usd" resolves, "eur"'s provider call
fails, and the run exits fatally with no printed rows even though a "usd"
row had been accumulated; "uah" is never processed. -/
theorem spec_C8_fail_fast_batch_witness :
    mainRun (["usd"] ++ "eur" :: ["uah"]) ⟨10, 1, 2024⟩ false
        (fun n => if n = "usd" then .ok [⟨"", 0, "2024-01-10T00:00:00", 91, 0⟩]
          else .error (.network "down")) []
      = (.fatalExit (.network "down"),
          (getCurrencyItemCache "eur" ⟨10, 1, 2024⟩ false (.error (.network "down"))
            [(mkCacheKey ⟨10, 1, 2024⟩ "usd",
              Blob.enc ⟨"usd", 1, "2024-01-10T00:00:00", 91, 0⟩)]).store) :=
  spec_C8_fail_fast_batch ⟨10, 1, 2024⟩ false
    (fun n => if n = "usd" then .ok [⟨"", 0, "2024-01-10T00:00:00", 91, 0⟩]
      else .error (.network "down"))
    ["usd"] "eur" ["uah"] []
    [["10.01.2024", "USD", "91.00", "0.00"]]
    [(mkCacheKey ⟨10, 1, 2024⟩ "usd", Blob.enc ⟨"usd", 1, "2024-01-10T00:00:00", 91, 0⟩)]
    (.network "down") (by with_unfolding_all decide) (by with_unfolding_all decide)

/-- A successful map lookup needs a non-empty map. -/
theorem mapGet_some_ne_nil (m : RateMap) (k : String) (v : List String)
    (h : mapGet m k = some v) : m ≠ [] := by
  intro hm
  subst hm
  simp [mapGet] at h

/-- With a non-empty per-run map, an XML-variant cache call issues no HTTP
request and leaves the map unchanged. -/
theorem xmlCache_mem_nonempty_no_call (name : String) (d : Date) (skip : Bool)
    (resp : Except Err (List Valute)) (store : StoreX) (mem : RateMap)
    (h : mem ≠ []) :
    (getCurrencyItemCacheXML name d skip resp store mem).httpCalls = 0 ∧
    (getCurrencyItemCacheXML name d skip resp store mem).mem = mem := by
  have hlen : mem.length > 0 := List.length_pos.mpr h
  unfold getCurrencyItemCacheXML cacheFetchAndStoreXML getCurrencyRate getCurrencyRates
  cases skip with
  | true =>
    simp only [if_pos hlen, if_true]
    cases hv : mapGet mem (strToLower name) <;> simp [hv]
  | false =>
    cases hg : storeGet store (mkCacheKey d name) with
    | none =>
      simp only [hg, if_pos hlen]
      cases hv : mapGet mem (strToLower name) <;> simp [hv]
    | some v =>
      cases hd : decodeBlob v with
      | error e => simp [hg, hd]
      | ok r => simp [hg, hd]

/-- Any single XML-variant cache call issues at most one HTTP request. -/
theorem xmlCache_calls_le_one (name : String) (d : Date) (skip : Bool)
    (resp : Except Err (List Valute)) (store : StoreX) (mem : RateMap) :
    (getCurrencyItemCacheXML name d skip resp store mem).httpCalls ≤ 1 := by
  have hrate : (getCurrencyRate name d mem resp).2.2 ≤ 1 := by
    unfold getCurrencyRate getCurrencyRates
    by_cases hlen : mem.length > 0
    · simp only [if_pos hlen]
      cases hv : mapGet mem (strToLower name) <;> simp [hv]
    · simp only [if_neg hlen]
      cases resp with
      | error e => simp
      | ok valutes =>
        rcases hl : ratesLoop d valutes mem with ⟨r, m'⟩
        cases r with
        | error e => simp [hl]
        | ok vals =>
          simp only [hl]
          cases hv : mapGet vals (strToLower name) <;> simp [hv]
  unfold getCurrencyItemCacheXML cacheFetchAndStoreXML
  rcases hr : getCurrencyRate name d mem resp with ⟨r, m', n⟩
  have hn : n ≤ 1 := by rw [hr] at hrate; exact hrate
  cases skip with
  | true => cases r <;> simp [hr, hn]
  | false =>
    cases hg : storeGet store (mkCacheKey d name) with
    | none => cases r <;> simp [hr, hg, hn]
    | some v =>
      cases hd : decodeBlob v with
      | error e => simp [hg, hd]
      | ok row => simp [hg, hd]

/-- When the valutes loop completes without error, the returned map and the
final map state coincide. -/
theorem ratesLoop_ok_eq (d : Date) :
    ∀ (vs : List Valute) (m vals m' : RateMap),
      ratesLoop d vs m = (.ok vals, m') → m' = vals := by
  intro vs
  induction vs with
  | nil =>
    intro m vals m' h
    simp only [ratesLoop, Prod.mk.injEq, Except.ok.injEq] at h
    rw [← h.1, h.2]
  | cons v tl ih =>
    intro m vals m' h
    simp only [ratesLoop] at h
    cases hr : v.getRow d with
    | error e => rw [hr] at h; simp at h
    | ok row => rw [hr] at h; exact ih _ _ _ h

/-- A fetch-and-store from an empty per-run map that succeeds leaves the map
non-empty (it was just filled from the bulletin). -/
theorem xmlFetch_ok_mem_ne_nil (name cacheKey : String) (d : Date)
    (resp : Except Err (List Valute)) (store : StoreX) (r : List String)
    (h : (cacheFetchAndStoreXML name cacheKey d resp store []).out = .ok r) :
    (cacheFetchAndStoreXML name cacheKey d resp store []).mem ≠ [] := by
  unfold cacheFetchAndStoreXML getCurrencyRate getCurrencyRates at h ⊢
  simp only [List.length_nil, gt_iff_lt, Nat.lt_irrefl, if_false] at h ⊢
  cases resp with
  | error e => simp at h
  | ok valutes =>
    rcases hl : ratesLoop d valutes [] with ⟨rr, m'⟩
    simp only [hl] at h ⊢
    cases rr with
    | error e => simp at h
    | ok vals =>
      cases hv : mapGet vals (strToLower name) with
      | none => simp [hv] at h
      | some row =>
        have hm : m' = vals := ratesLoop_ok_eq d valutes [] vals m' hl
        simp only [hv]
        show m' ≠ []
        rw [hm]
        exact mapGet_some_ne_nil vals (strToLower name) row hv

/-- From an empty per-run map, a successful XML-variant cache call either
was a pure cache hit (no HTTP request, map still empty) or leaves the map
non-empty (it was filled from the fetched bulletin). -/
theorem xmlCache_ok_from_empty (name : String) (d : Date) (skip : Bool)
    (resp : Except Err (List Valute)) (store : StoreX) (r : List String)
    (h : (getCurrencyItemCacheXML name d skip resp store []).out = .ok r) :
    ((getCurrencyItemCacheXML name d skip resp store []).httpCalls = 0 ∧
      (getCurrencyItemCacheXML name d skip resp store []).mem = []) ∨
    (getCurrencyItemCacheXML name d skip resp store []).mem ≠ [] := by
  unfold getCurrencyItemCacheXML at h ⊢
  cases skip with
  | true => exact Or.inr (xmlFetch_ok_mem_ne_nil _ _ _ _ _ _ h)
  | false =>
    cases hg : storeGet store (mkCacheKey d name) with
    | none =>
      simp only [hg, Bool.false_eq_true, if_false] at h ⊢
      exact Or.inr (xmlFetch_ok_mem_ne_nil _ _ _ _ _ _ h)
    | some v =>
      cases hd : decodeBlob v with
      | error e => simp [hg, hd] at h
      | ok row => simp [hg, hd]

/-- The XML batch loop preserves the per-run invariant — either no HTTP
request has been made yet and the bulletin map is still empty, or the map is
non-empty and at most one request has been made — so it never exceeds one
request in total. -/
theorem processListXML_calls_invariant (d : Date) (skip : Bool)
    (resp : Except Err (List Valute)) :
    ∀ (currs : List String) (store : StoreX) (mem : RateMap) (n : Nat)
      (rows : List (List String)),
      (mem = [] ∧ n = 0) ∨ (mem ≠ [] ∧ n ≤ 1) →
      (processListXML d skip resp currs store mem n rows).httpCalls ≤ 1 := by
  intro currs
  induction currs with
  | nil =>
    intro store mem n rows hinv
    simp only [processListXML]
    rcases hinv with ⟨_, hn⟩ | ⟨_, hn⟩ <;> omega
  | cons c cs ih =>
    intro store mem n rows hinv
    simp only [processListXML]
    rcases hinv with ⟨hm, hn⟩ | ⟨hm, hn⟩
    · subst hm
      subst hn
      have hle := xmlCache_calls_le_one c d skip resp store []
      cases ho : (getCurrencyItemCacheXML c d skip resp store []).out with
      | err e => simp only [ho]; omega
      | panics => simp only [ho]; omega
      | ok row =>
        simp only [ho]
        rcases xmlCache_ok_from_empty c d skip resp store row ho with ⟨h0, hmem⟩ | hne
        · exact ih _ _ _ _ (Or.inl ⟨hmem, by omega⟩)
        · exact ih _ _ _ _ (Or.inr ⟨hne, by omega⟩)
    · obtain ⟨h0, hmem⟩ := xmlCache_mem_nonempty_no_call c d skip resp store mem hm
      cases ho : (getCurrencyItemCacheXML c d skip resp store mem).out with
      | err e => simp only [ho]; omega
      | panics => simp only [ho]; omega
      | ok row =>
        simp only [ho]
        refine ih _ _ _ _ (Or.inr ⟨?_, by omega⟩)
        rw [hmem]
        exact hm

/-- C9: the XML bulletin variant issues at most one provider HTTP request
per process run, however many currencies are requested and however many
cache misses occur — after the first successful fetch fills the per-run
dedup map, all further lookups are served from it. -/
theorem spec_C9_single_http_request (d : Date) (skip : Bool)
    (resp : Except Err (List Valute)) (currs : List String) (store : StoreX) :
    (processListXML d skip resp currs store [] 0 []).httpCalls ≤ 1 :=
  processListXML_calls_invariant d skip resp currs store [] 0 []
    (Or.inl ⟨rfl, rfl⟩)

end Currency

namespace Currency

/-- C10: the JSON-variant fetch indexes the last element of the parsed array
without checking non-emptiness, so a well-formed but empty JSON array makes
the operation panic (for each known currency) instead of returning a
malformed-response error. -/
theorem spec_C10_empty_array_panics :
    getCurrencyItem "usd" (.ok []) = .panics ∧
    getCurrencyItem "eur" (.ok []) = .panics ∧
    getCurrencyItem "uah" (.ok []) = .panics := by
  refine ⟨?_, ?_, ?_⟩ <;> rfl

end Currency
